import Mathlib

/-!
Shallow embedding of the Typed-Event-Bus registry (src/index.ts,
`createEventBusChannel`) and proofs of its specification.

Modelling choices, all read off the source:

* `EventKey` values (string | symbol | number) only need decidable
  equality and Map-key use; we take `Key := Nat`.
* Handlers are function values compared by reference identity; we name
  them by `HandlerId := Nat` and keep their runtime behaviour in an
  environment `Env : HandlerId → Payload → List Act`, a list of the
  bus-visible actions the handler performs when invoked (re-entrant
  `on`/`off` calls and a possible `throw`, which aborts the handler body).
* The JS `Map` is an association list with unique keys (`mapGet`,
  `mapSet`, `mapHas` mirror `get`, `set`, `has`).
* JS arrays are mutable objects: the bus stores *references*.  We model
  a heap `List (List HandlerId)` indexed by allocation order; `on`
  pushes in place (`bus.get(key)!.push(handler)`) while `off` allocates
  a fresh filtered array (`bus.set(key, handlers.filter(...))`).
* `emit` reads the array reference once and runs `Array.prototype.forEach`
  on it: the length is captured before the first callback, each index is
  read from the live array when visited, and appended elements are not
  visited.  `emitLoop` reproduces exactly that.
* `config?.onError(e, key, payload)` is an optional callback that may
  itself throw; we model it as `Option (Error → Key → Payload → Option Error)`
  where a `some e'` result is a throw of `e'`, which propagates out of
  `forEach` and hence out of `emit`.
* Observable behaviour is a trace of events: handler invocations and
  `onError` invocations, plus the exception (if any) escaping `emit`.
-/

abbrev Key := Nat
abbrev HandlerId := Nat
abbrev Payload := Nat
abbrev Error := Nat

/-- A bus-visible action performed by a handler body while it runs:
a re-entrant `on`, a re-entrant `off`, or throwing an exception
(which aborts the rest of the body). -/
inductive Act where
  | «on» (k : Key) (h : HandlerId)
  | off (k : Key) (h : HandlerId)
  | throw (e : Error)
  deriving Repr, DecidableEq

/-- The behaviour of each handler function value: the actions its body
performs when called with a given payload. -/
abbrev Env := HandlerId → Payload → List Act

/-- Behaviour of a configured `onError(error, eventKey, payload)`
callback: `some e'` means the callback itself throws `e'`. -/
abbrev ErrCb := Error → Key → Payload → Option Error

/-- Internal storage of the event bus channel: a heap of array objects
(JS arrays are mutable references) and the `Map` from event key to the
reference of its handler array. -/
structure BusState where
  heap : List (List HandlerId)
  bus : List (Key × Nat)
  deriving Repr, DecidableEq

/-- `new Map()` inside `createEventBusChannel`. -/
def BusState.empty : BusState := ⟨[], []⟩

/-- `Map.prototype.get`. -/
def mapGet (m : List (Key × Nat)) (k : Key) : Option Nat :=
  match m with
  | [] => none
  | (k', v) :: rest => if k' = k then some v else mapGet rest k

/-- `Map.prototype.set` (replaces in place, appends if absent). -/
def mapSet (m : List (Key × Nat)) (k : Key) (v : Nat) : List (Key × Nat) :=
  match m with
  | [] => [(k, v)]
  | (k', v') :: rest => if k' = k then (k, v) :: rest else (k', v') :: mapSet rest k v

/-- `Map.prototype.has`. -/
def mapHas (m : List (Key × Nat)) (k : Key) : Bool :=
  (mapGet m k).isSome

/-- Dereference an array object in the heap (out-of-range reads give
the empty array; well-formed states never produce them). -/
def heapGet (s : BusState) (r : Nat) : List HandlerId :=
  s.heap[r]?.getD []

/-- `arr.push(h)` on the array object `r`: in-place append. -/
def heapPush (s : BusState) (r : Nat) (h : HandlerId) : BusState :=
  { s with heap := s.heap.set r (heapGet s r ++ [h]) }

/-- Allocate a fresh array object holding `xs`; returns the new state
and the new reference. -/
def alloc (s : BusState) (xs : List HandlerId) : BusState × Nat :=
  ({ s with heap := s.heap ++ [xs] }, s.heap.length)

/-- `on(key, handler)` from the source:
`if (!bus.has(key)) { bus.set(key, []); } bus.get(key)!.push(handler);`. -/
def «on» (s : BusState) (k : Key) (h : HandlerId) : BusState :=
  let s1 : BusState :=
    if mapHas s.bus k then s
    else
      let a := alloc s []
      { a.1 with bus := mapSet a.1.bus k a.2 }
  match mapGet s1.bus k with
  | some r => heapPush s1 r h
  | none => s1

/-- `off(key, handler)` from the source: if the key has an array, set the
key to a freshly filtered copy (`handlers.filter((h) => h !== handler)`);
otherwise do nothing. -/
def off (s : BusState) (k : Key) (h : HandlerId) : BusState :=
  match mapGet s.bus k with
  | none => s
  | some r =>
      let a := alloc s ((heapGet s r).filter (fun x => x ≠ h))
      { a.1 with bus := mapSet a.1.bus k a.2 }

/-- The zero-argument unsubscribe closure returned by `on(key, handler)`:
its body is `() => { off(key, handler); }`, capturing `key` and `handler`. -/
def unsubTok (k : Key) (h : HandlerId) : BusState → BusState :=
  fun s => off s k h

/-- The handler sequence currently registered under `k` (empty when the
map has no entry for `k`). -/
def handlersOf (s : BusState) (k : Key) : List HandlerId :=
  match mapGet s.bus k with
  | none => []
  | some r => heapGet s r

/-- Run a handler body: perform its actions in order, stopping at the
first `throw`; returns the final state and the thrown error, if any. -/
def runActs : List Act → BusState → BusState × Option Error
  | [], s => (s, none)
  | Act.«on» k h :: rest, s => runActs rest («on» s k h)
  | Act.off k h :: rest, s => runActs rest (off s k h)
  | Act.throw e :: _, s => (s, some e)

/-- The error a handler body throws, if any (the state never influences
which actions run, so this is a function of the body alone). -/
def throwOf : List Act → Option Error
  | [] => none
  | Act.throw e :: _ => some e
  | _ :: rest => throwOf rest

/-- Observable events of a dispatch: a handler invoked with a payload,
or the configured `onError` invoked with (error, key, payload). -/
inductive Ev where
  | invoke (h : HandlerId) (p : Payload)
  | errCb (e : Error) (k : Key) (p : Payload)
  deriving Repr, DecidableEq

/-- The body of `handlers.forEach((fn) => { try { fn(payload) } catch (e)
{ config?.onError(e, key, payload) } })`, iterating indices `i, i+1, ...`
of the *live* array object `r` with `n` indices left (`forEach` captures
the length before the first callback and reads each element when its
index is visited; a vanished index is skipped).  Returns the final
state, the event trace, and the exception escaping the loop, if any
(only a throwing `onError` escapes). -/
def emitLoop (env : Env) (cfg : Option ErrCb) (k : Key) (p : Payload) (r : Nat) :
    Nat → Nat → BusState → BusState × List Ev × Option Error
  | _, 0, s => (s, [], none)
  | i, n+1, s =>
    match (heapGet s r)[i]? with
    | none => emitLoop env cfg k p r (i+1) n s
    | some h =>
        let step := runActs (env h p) s
        match step.2 with
        | none =>
            let rest := emitLoop env cfg k p r (i+1) n step.1
            (rest.1, Ev.invoke h p :: rest.2.1, rest.2.2)
        | some e =>
            match cfg with
            | none =>
                let rest := emitLoop env cfg k p r (i+1) n step.1
                (rest.1, Ev.invoke h p :: rest.2.1, rest.2.2)
            | some f =>
                match f e k p with
                | some e' => (step.1, [Ev.invoke h p, Ev.errCb e k p], some e')
                | none =>
                    let rest := emitLoop env cfg k p r (i+1) n step.1
                    (rest.1, Ev.invoke h p :: Ev.errCb e k p :: rest.2.1, rest.2.2)

/-- `emit(key, payload)` from the source: `const handlers = bus.get(key);
if (handlers) { handlers.forEach(...) }`.  An empty array is truthy, so
a present-but-empty entry still enters (and immediately finishes) the
loop. -/
def emit (env : Env) (cfg : Option ErrCb) (s : BusState) (k : Key) (p : Payload) :
    BusState × List Ev × Option Error :=
  match mapGet s.bus k with
  | none => (s, [], none)
  | some r => emitLoop env cfg k p r 0 (heapGet s r).length s

/-- Dispatch over an explicit snapshot list of handlers, exactly as the
spec words it: the handlers invoked are those registered at the moment
publish begins iterating, in order, regardless of re-entrant mutation. -/
def emitSnapList (env : Env) (cfg : Option ErrCb) (k : Key) (p : Payload) :
    List HandlerId → BusState → BusState × List Ev × Option Error
  | [], s => (s, [], none)
  | h :: rest, s =>
      let step := runActs (env h p) s
      match step.2 with
      | none =>
          let r := emitSnapList env cfg k p rest step.1
          (r.1, Ev.invoke h p :: r.2.1, r.2.2)
      | some e =>
          match cfg with
          | none =>
              let r := emitSnapList env cfg k p rest step.1
              (r.1, Ev.invoke h p :: r.2.1, r.2.2)
          | some f =>
              match f e k p with
              | some e' => (step.1, [Ev.invoke h p, Ev.errCb e k p], some e')
              | none =>
                  let r := emitSnapList env cfg k p rest step.1
                  (r.1, Ev.invoke h p :: Ev.errCb e k p :: r.2.1, r.2.2)

/-- Snapshot-semantics publish, following the spec's words ("iterate over
a stable snapshot taken at publish-start"). -/
def emitSnap (env : Env) (cfg : Option ErrCb) (s : BusState) (k : Key) (p : Payload) :
    BusState × List Ev × Option Error :=
  match mapGet s.bus k with
  | none => (s, [], none)
  | some r => emitSnapList env cfg k p (heapGet s r) s

/-- A registry operation performed by external application code. -/
inductive Op where
  | «on» (k : Key) (h : HandlerId)
  | off (k : Key) (h : HandlerId)
  | emit (k : Key) (p : Payload)
  deriving Repr, DecidableEq

/-- Apply a sequence of registry operations. -/
def applyOps (env : Env) (cfg : Option ErrCb) : List Op → BusState → BusState
  | [], s => s
  | Op.«on» k h :: rest, s => applyOps env cfg rest («on» s k h)
  | Op.off k h :: rest, s => applyOps env cfg rest (off s k h)
  | Op.emit k p :: rest, s => applyOps env cfg rest (emit env cfg s k p).1

/-- Well-formedness of a bus state: every array reference stored in the
map points into the heap.  Every state reachable from `BusState.empty`
satisfies this. -/
def WF (s : BusState) : Prop :=
  ∀ kv ∈ s.bus, kv.2 < s.heap.length

instance (s : BusState) : Decidable (WF s) :=
  decidable_of_iff (∀ kv ∈ s.bus, kv.2 < s.heap.length) Iff.rfl

/-- The expected dispatch trace over a handler list when the configured
`onError` never throws: each handler is invoked, and each throwing
handler is followed by one `onError` invocation. -/
def traceOf (env : Env) (k : Key) (p : Payload) : List HandlerId → List Ev
  | [] => []
  | h :: rest =>
      Ev.invoke h p ::
        match throwOf (env h p) with
        | none => traceOf env k p rest
        | some e => Ev.errCb e k p :: traceOf env k p rest

/-- The state reached after running the bodies of a list of handlers in
order (ignoring their thrown errors). -/
def runHandlers (env : Env) (p : Payload) : List HandlerId → BusState → BusState
  | [], s => s
  | h :: rest, s => runHandlers env p rest (runActs (env h p) s).1

example : handlersOf («on» («on» BusState.empty 0 5) 0 7) 0 = [5, 7] := by decide

example : handlersOf (off («on» («on» BusState.empty 0 5) 0 7) 0 5) 0 = [7] := by decide

example :
    (emit (fun _ _ => []) none («on» («on» BusState.empty 0 5) 0 7) 0 3).2.1 =
      [Ev.invoke 5 3, Ev.invoke 7 3] := by decide

/-! ### Basic lemmas about the map and the heap -/

theorem mapGet_mapSet_self (m : List (Key × Nat)) (k : Key) (v : Nat) :
    mapGet (mapSet m k v) k = some v := by
  induction m with
  | nil => simp [mapSet, mapGet]
  | cons kv rest ih =>
      obtain ⟨k', v'⟩ := kv
      by_cases h : k' = k
      · simp [mapSet, mapGet, h]
      · simp [mapSet, mapGet, h, ih]

theorem mem_of_mapGet (m : List (Key × Nat)) (k : Key) (r : Nat)
    (h : mapGet m k = some r) : (k, r) ∈ m := by
  induction m with
  | nil => simp [mapGet] at h
  | cons kv rest ih =>
      obtain ⟨k', v'⟩ := kv
      by_cases e : k' = k
      · subst e
        simp [mapGet] at h
        simp [h]
      · simp [mapGet, e] at h
        exact List.mem_cons_of_mem _ (ih h)

theorem mem_mapSet (m : List (Key × Nat)) (k : Key) (v : Nat) (kv : Key × Nat)
    (h : kv ∈ mapSet m k v) : kv = (k, v) ∨ kv ∈ m := by
  induction m with
  | nil => simpa [mapSet] using h
  | cons kv' rest ih =>
      obtain ⟨k', v'⟩ := kv'
      by_cases e : k' = k
      · simp [mapSet, e] at h
        rcases h with h | h
        · exact Or.inl h
        · exact Or.inr (List.mem_cons_of_mem _ h)
      · simp [mapSet, e] at h
        rcases h with h | h
        · exact Or.inr (by simp [h])
        · rcases ih h with h' | h'
          · exact Or.inl h'
          · exact Or.inr (List.mem_cons_of_mem _ h')

theorem heapGet_ge (s : BusState) (r : Nat) (h : s.heap.length ≤ r) :
    heapGet s r = [] := by
  unfold heapGet
  rw [List.getElem?_eq_none h]
  rfl

theorem heapGet_alloc (s : BusState) (xs : List HandlerId) (r : Nat) :
    heapGet (alloc s xs).1 r = if r = s.heap.length then xs else heapGet s r := by
  unfold heapGet alloc
  by_cases h : r = s.heap.length
  · subst h
    simp [List.getElem?_concat_length]
  · rcases Nat.lt_or_ge r s.heap.length with hlt | hge
    · simp [h, List.getElem?_append_left hlt]
    · have hge' : s.heap.length + 1 ≤ r := by omega
      simp only [if_neg h]
      rw [List.getElem?_eq_none (by simpa using hge'),
        List.getElem?_eq_none hge]

theorem heapGet_heapPush (s : BusState) (r' : Nat) (h : HandlerId) (r : Nat) :
    heapGet (heapPush s r' h) r =
      if r = r' ∧ r' < s.heap.length then heapGet s r ++ [h] else heapGet s r := by
  by_cases e : r = r'
  · subst e
    by_cases hl : r < s.heap.length
    · simp only [heapPush, heapGet]
      simp [List.getElem?_set_self hl, hl]
    · simp only [heapPush, heapGet]
      rw [List.set_eq_of_length_le (Nat.le_of_not_lt hl)]
      simp [hl]
  · simp only [heapPush, heapGet]
    rw [List.getElem?_set_ne (fun hh => e hh.symm)]
    simp [e]

theorem heapPush_bus (s : BusState) (r' : Nat) (h : HandlerId) :
    (heapPush s r' h).bus = s.bus := rfl

/-- Characterisation of `on` by case analysis on the map lookup. -/
theorem on_eq (s : BusState) (k : Key) (h : HandlerId) :
    «on» s k h =
      match mapGet s.bus k with
      | some r => heapPush s r h
      | none =>
          heapPush ⟨s.heap ++ [[]], mapSet s.bus k s.heap.length⟩ s.heap.length h := by
  unfold «on» mapHas alloc
  cases e : mapGet s.bus k
  · simp [e, mapGet_mapSet_self]
  · simp [e]

/-- Characterisation of `off` by case analysis on the map lookup. -/
theorem off_eq (s : BusState) (k : Key) (h : HandlerId) :
    off s k h =
      match mapGet s.bus k with
      | none => s
      | some r =>
          ⟨s.heap ++ [(heapGet s r).filter (fun x => x ≠ h)],
            mapSet s.bus k s.heap.length⟩ := by
  unfold off alloc
  cases mapGet s.bus k <;> rfl

theorem heapGet_mk_append (s : BusState) (xs : List HandlerId)
    (m : List (Key × Nat)) (r : Nat) :
    heapGet ⟨s.heap ++ [xs], m⟩ r = if r = s.heap.length then xs else heapGet s r := by
  have h0 : heapGet ⟨s.heap ++ [xs], m⟩ r = heapGet (alloc s xs).1 r := rfl
  rw [h0, heapGet_alloc]

/-! ### The heap arrays only ever grow -/

theorem heapGet_on_grows (s : BusState) (k : Key) (h : HandlerId) (r : Nat) :
    heapGet s r <+: heapGet («on» s k h) r := by
  rw [on_eq]
  cases e : mapGet s.bus k with
  | none =>
      simp only []
      rw [heapGet_heapPush]
      split
      · next hc =>
          rw [heapGet_mk_append, if_pos hc.1, heapGet_ge s r (le_of_eq hc.1.symm)]
          exact List.nil_prefix
      · next hc =>
          rw [heapGet_mk_append]
          by_cases hr : r = s.heap.length
          · exact absurd ⟨hr, by simp⟩ hc
          · rw [if_neg hr]
  | some r' =>
      simp only []
      rw [heapGet_heapPush]
      split
      · next hc =>
          obtain ⟨rfl, _⟩ := hc
          exact List.prefix_append _ _
      · exact List.prefix_refl _

theorem heapGet_off_grows (s : BusState) (k : Key) (h : HandlerId) (r : Nat) :
    heapGet s r <+: heapGet (off s k h) r := by
  rw [off_eq]
  cases e : mapGet s.bus k with
  | none => exact List.prefix_refl _
  | some r' =>
      simp only []
      rw [heapGet_mk_append]
      by_cases hr : r = s.heap.length
      · rw [if_pos hr, heapGet_ge s r (le_of_eq hr.symm)]
        exact List.nil_prefix
      · rw [if_neg hr]

theorem heapGet_runActs_grows (acts : List Act) :
    ∀ (s : BusState) (r : Nat), heapGet s r <+: heapGet (runActs acts s).1 r := by
  induction acts with
  | nil => intro s r; exact List.prefix_refl _
  | cons a rest ih =>
      intro s r
      cases a with
      | «on» k h =>
          simp only [runActs]
          exact (heapGet_on_grows s k h r).trans (ih _ r)
      | off k h =>
          simp only [runActs]
          exact (heapGet_off_grows s k h r).trans (ih _ r)
      | throw e =>
          simp only [runActs]
          exact List.prefix_refl _

theorem runActs_snd (acts : List Act) : ∀ s : BusState, (runActs acts s).2 = throwOf acts := by
  induction acts with
  | nil => intro s; rfl
  | cons a rest ih =>
      intro s
      cases a <;> simp [runActs, throwOf, ih]

theorem prefix_getElem?_eq {l₁ l₂ : List HandlerId} (h : l₁ <+: l₂) {i : Nat}
    (hi : i < l₁.length) : l₂[i]? = l₁[i]? := by
  obtain ⟨t, rfl⟩ := h
  exact List.getElem?_append_left hi

/-! ### The live `forEach` loop refines snapshot iteration -/

theorem emitLoop_eq_snapList (env : Env) (cfg : Option ErrCb) (k : Key) (p : Payload)
    (r : Nat) :
    ∀ (n i : Nat) (s : BusState) (snap : List HandlerId),
      snap <+: heapGet s r → i + n ≤ snap.length →
      emitLoop env cfg k p r i n s = emitSnapList env cfg k p ((snap.drop i).take n) s := by
  intro n
  induction n with
  | zero =>
      intro i s snap _ _
      simp [emitLoop, emitSnapList]
  | succ n ih =>
      intro i s snap hpre hlen
      have hi : i < snap.length := by omega
      have hsome : (heapGet s r)[i]? = some snap[i] := by
        rw [prefix_getElem?_eq hpre hi]
        exact List.getElem?_eq_getElem hi
      have hdrop : snap.drop i = snap[i] :: snap.drop (i+1) :=
        List.drop_eq_getElem_cons hi
      have hrec :
          emitLoop env cfg k p r (i+1) n (runActs (env snap[i] p) s).1 =
            emitSnapList env cfg k p ((snap.drop (i+1)).take n)
              (runActs (env snap[i] p) s).1 :=
        ih (i+1) (runActs (env snap[i] p) s).1 snap
          (hpre.trans (heapGet_runActs_grows (env snap[i] p) s r)) (by omega)
      rw [hdrop, List.take_succ_cons]
      simp only [emitLoop, emitSnapList, hsome, hrec]

theorem emit_eq_emitSnap (env : Env) (cfg : Option ErrCb) (s : BusState) (k : Key)
    (p : Payload) : emit env cfg s k p = emitSnap env cfg s k p := by
  unfold emit emitSnap
  cases e : mapGet s.bus k with
  | none => rfl
  | some r =>
      have h := emitLoop_eq_snapList env cfg k p r (heapGet s r).length 0 s (heapGet s r)
        (List.prefix_refl _) (by omega)
      simpa using h

/-! ### Traces of snapshot dispatch -/

theorem snapList_cfg_none (env : Env) (k : Key) (p : Payload) :
    ∀ (l : List HandlerId) (s : BusState),
      (emitSnapList env none k p l s).2.1 = l.map (fun h => Ev.invoke h p) ∧
      (emitSnapList env none k p l s).2.2 = none := by
  intro l
  induction l with
  | nil => intro s; simp [emitSnapList]
  | cons h rest ih =>
      intro s
      simp only [emitSnapList]
      cases hs : (runActs (env h p) s).2 <;> simp [ih]

theorem snapList_throwFree (env : Env) (cfg : Option ErrCb) (k : Key) (p : Payload) :
    ∀ (l : List HandlerId) (s : BusState), (∀ h ∈ l, throwOf (env h p) = none) →
      (emitSnapList env cfg k p l s).2.1 = l.map (fun h => Ev.invoke h p) ∧
      (emitSnapList env cfg k p l s).2.2 = none := by
  intro l
  induction l with
  | nil => intro s _; simp [emitSnapList]
  | cons h rest ih =>
      intro s hl
      have hh : (runActs (env h p) s).2 = none := by
        rw [runActs_snd]
        exact hl h (by simp)
      simp only [emitSnapList, hh]
      simp [ih _ (fun h' hm => hl h' (List.mem_cons_of_mem _ hm))]

theorem snapList_benign (env : Env) (k : Key) (p : Payload) (f : ErrCb)
    (hf : ∀ e, f e k p = none) :
    ∀ (l : List HandlerId) (s : BusState),
      (emitSnapList env (some f) k p l s).2.1 = traceOf env k p l ∧
      (emitSnapList env (some f) k p l s).2.2 = none := by
  intro l
  induction l with
  | nil => intro s; simp [emitSnapList, traceOf]
  | cons h rest ih =>
      intro s
      have hs := runActs_snd (env h p) s
      cases ht : throwOf (env h p) with
      | none =>
          rw [ht] at hs
          simp only [emitSnapList, traceOf, hs, ht]
          simp [ih]
      | some e =>
          rw [ht] at hs
          simp only [emitSnapList, traceOf, hs, ht, hf e]
          simp [ih]

theorem snapList_invoke_mem (env : Env) (cfg : Option ErrCb) (k : Key) (p : Payload) :
    ∀ (l : List HandlerId) (s : BusState) (h : HandlerId),
      Ev.invoke h p ∈ (emitSnapList env cfg k p l s).2.1 → h ∈ l := by
  intro l
  induction l with
  | nil =>
      intro s h hm
      simp [emitSnapList] at hm
  | cons h' rest ih =>
      intro s h hm
      simp only [emitSnapList] at hm
      cases hs : (runActs (env h' p) s).2 with
      | none =>
          rw [hs] at hm
          simp at hm
          rcases hm with he | hm'
          · simp [he]
          · exact List.mem_cons_of_mem _ (ih _ _ hm')
      | some e =>
          rw [hs] at hm
          cases cfg with
          | none =>
              simp at hm
              rcases hm with he | hm'
              · simp [he]
              · exact List.mem_cons_of_mem _ (ih _ _ hm')
          | some f =>
              cases hf : f e k p with
              | some e' =>
                  simp [hf] at hm
                  simp [hm]
              | none =>
                  simp [hf] at hm
                  rcases hm with he | hm'
                  · simp [he]
                  · exact List.mem_cons_of_mem _ (ih _ _ hm')

theorem snapList_append_throwFree (env : Env) (cfg : Option ErrCb) (k : Key) (p : Payload) :
    ∀ (l1 l2 : List HandlerId) (s : BusState), (∀ h ∈ l1, throwOf (env h p) = none) →
      emitSnapList env cfg k p (l1 ++ l2) s =
        ((emitSnapList env cfg k p l2 (runHandlers env p l1 s)).1,
          l1.map (fun h => Ev.invoke h p) ++
            (emitSnapList env cfg k p l2 (runHandlers env p l1 s)).2.1,
          (emitSnapList env cfg k p l2 (runHandlers env p l1 s)).2.2) := by
  intro l1
  induction l1 with
  | nil => intro l2 s _; simp [runHandlers]
  | cons h rest ih =>
      intro l2 s hl
      have hh : (runActs (env h p) s).2 = none := by
        rw [runActs_snd]
        exact hl h (by simp)
      simp only [List.cons_append, emitSnapList, hh, runHandlers, List.append_eq]
      rw [ih l2 _ (fun h' hm => hl h' (List.mem_cons_of_mem _ hm))]
      simp

theorem snapList_throw_step (env : Env) (k : Key) (p : Payload) (f : ErrCb)
    (h : HandlerId) (l : List HandlerId) (s : BusState) (e e' : Error)
    (hth : throwOf (env h p) = some e) (hf : f e k p = some e') :
    emitSnapList env (some f) k p (h :: l) s =
      ((runActs (env h p) s).1, [Ev.invoke h p, Ev.errCb e k p], some e') := by
  have hs := runActs_snd (env h p) s
  rw [hth] at hs
  simp only [emitSnapList, hs, hth, hf]

/-! ### Effect of `on` and `off` on the registered handler sequence -/

theorem handlersOf_on (s : BusState) (k : Key) (h : HandlerId) (hwf : WF s) :
    handlersOf («on» s k h) k = handlersOf s k ++ [h] := by
  rw [on_eq]
  cases e : mapGet s.bus k with
  | none =>
      simp only [handlersOf, heapPush_bus, e]
      simp only [mapGet_mapSet_self]
      rw [heapGet_heapPush, if_pos ⟨rfl, by simp⟩, heapGet_mk_append, if_pos rfl]
  | some r =>
      have hr : r < s.heap.length := hwf (k, r) (mem_of_mapGet _ _ _ e)
      simp only [handlersOf, heapPush_bus, e]
      rw [heapGet_heapPush, if_pos ⟨rfl, hr⟩]

theorem handlersOf_off (s : BusState) (k : Key) (h : HandlerId) :
    handlersOf (off s k h) k = (handlersOf s k).filter (fun x => x ≠ h) := by
  rw [off_eq]
  cases e : mapGet s.bus k with
  | none => simp [handlersOf, e]
  | some r =>
      simp only [handlersOf, e]
      simp only [mapGet_mapSet_self]
      rw [heapGet_mk_append, if_pos rfl]

/-- `emit` dispatches exactly to the handler sequence registered at the
moment it starts (follows from `emit_eq_emitSnap`). -/
theorem emit_eq_snapList (env : Env) (cfg : Option ErrCb) (s : BusState) (k : Key)
    (p : Payload) :
    emit env cfg s k p = emitSnapList env cfg k p (handlersOf s k) s := by
  rw [emit_eq_emitSnap]
  unfold emitSnap handlersOf
  cases e : mapGet s.bus k
  · simp [emitSnapList]
  · rfl

theorem invoke_mem_traceOf (env : Env) (k : Key) (p : Payload) :
    ∀ (l : List HandlerId), ∀ h ∈ l, Ev.invoke h p ∈ traceOf env k p l := by
  intro l
  induction l with
  | nil => intro h hm; simp at hm
  | cons h' rest ih =>
      intro h hm
      rcases List.mem_cons.mp hm with rfl | hm'
      · cases ht : throwOf (env h p) <;> simp [traceOf, ht]
      · have := ih h hm'
        cases ht : throwOf (env h' p) <;> simp [traceOf, ht, this]

theorem errCb_mem_traceOf (env : Env) (k : Key) (p : Payload) :
    ∀ (l : List HandlerId) (h : HandlerId) (e : Error), h ∈ l →
      throwOf (env h p) = some e → Ev.errCb e k p ∈ traceOf env k p l := by
  intro l
  induction l with
  | nil => intro h e hm; simp at hm
  | cons h' rest ih =>
      intro h e hm hth
      rcases List.mem_cons.mp hm with rfl | hm'
      · simp [traceOf, hth]
      · have := ih h e hm' hth
        cases ht : throwOf (env h' p) <;> simp [traceOf, ht, this]

/-! ### Keys are never removed from the map -/

theorem mapGet_mapSet_ne (m : List (Key × Nat)) (k k' : Key) (v : Nat) (h : k' ≠ k) :
    mapGet (mapSet m k v) k' = mapGet m k' := by
  induction m with
  | nil =>
      have hne : ¬(k = k') := fun hh => h hh.symm
      simp [mapSet, mapGet, hne]
  | cons kv rest ih =>
      obtain ⟨k0, v0⟩ := kv
      by_cases e : k0 = k
      · subst e
        have hne : ¬(k0 = k') := fun hh => h hh.symm
        simp [mapSet, mapGet, hne]
      · simp [mapSet, mapGet, e, ih]

theorem mapHas_mapSet_mono (m : List (Key × Nat)) (k k' : Key) (v : Nat)
    (hm : mapHas m k = true) : mapHas (mapSet m k' v) k = true := by
  by_cases e : k' = k
  · subst e
    simp [mapHas, mapGet_mapSet_self]
  · unfold mapHas at hm ⊢
    rw [mapGet_mapSet_ne m k' k v (fun hh => e hh.symm)]
    exact hm

theorem mapHas_on_self (s : BusState) (k : Key) (h : HandlerId) :
    mapHas («on» s k h).bus k = true := by
  rw [on_eq]
  cases e : mapGet s.bus k with
  | none => simp [mapHas, heapPush_bus, mapGet_mapSet_self]
  | some r => simp [mapHas, heapPush_bus, e]

theorem mapHas_on_mono (s : BusState) (k' : Key) (h : HandlerId) (k : Key)
    (hm : mapHas s.bus k = true) : mapHas («on» s k' h).bus k = true := by
  rw [on_eq]
  cases e : mapGet s.bus k' with
  | none =>
      simp only [heapPush_bus]
      exact mapHas_mapSet_mono _ _ _ _ hm
  | some r =>
      simp only [heapPush_bus]
      exact hm

theorem mapHas_off_self (s : BusState) (k : Key) (h : HandlerId) :
    mapHas (off s k h).bus k = mapHas s.bus k := by
  rw [off_eq]
  cases e : mapGet s.bus k with
  | none => rfl
  | some r => simp [mapHas, mapGet_mapSet_self, e]

theorem mapHas_off_mono (s : BusState) (k' : Key) (h : HandlerId) (k : Key)
    (hm : mapHas s.bus k = true) : mapHas (off s k' h).bus k = true := by
  rw [off_eq]
  cases e : mapGet s.bus k' with
  | none => exact hm
  | some r => exact mapHas_mapSet_mono _ _ _ _ hm

theorem mapHas_runActs_mono (acts : List Act) :
    ∀ (s : BusState) (k : Key), mapHas s.bus k = true →
      mapHas (runActs acts s).1.bus k = true := by
  induction acts with
  | nil => intro s k hm; exact hm
  | cons a rest ih =>
      intro s k hm
      cases a with
      | «on» k' h => exact ih _ _ (mapHas_on_mono s k' h k hm)
      | off k' h => exact ih _ _ (mapHas_off_mono s k' h k hm)
      | throw e => exact hm

theorem mapHas_emitLoop_mono (env : Env) (cfg : Option ErrCb) (k : Key) (p : Payload)
    (r : Nat) :
    ∀ (n i : Nat) (s : BusState) (k' : Key), mapHas s.bus k' = true →
      mapHas (emitLoop env cfg k p r i n s).1.bus k' = true := by
  intro n
  induction n with
  | zero => intro i s k' hk; simpa [emitLoop] using hk
  | succ n ih =>
      intro i s k' hk
      cases hg : (heapGet s r)[i]? with
      | none =>
          simp only [emitLoop, hg]
          exact ih (i+1) s k' hk
      | some h =>
          have hk1 : mapHas (runActs (env h p) s).1.bus k' = true :=
            mapHas_runActs_mono _ _ _ hk
          cases hs : (runActs (env h p) s).2 with
          | none =>
              simp only [emitLoop, hg, hs]
              exact ih (i+1) _ k' hk1
          | some e =>
              cases cfg with
              | none =>
                  simp only [emitLoop, hg, hs]
                  exact ih (i+1) _ k' hk1
              | some f =>
                  cases hf : f e k p with
                  | some e' =>
                      simp only [emitLoop, hg, hs, hf]
                      exact hk1
                  | none =>
                      simp only [emitLoop, hg, hs, hf]
                      exact ih (i+1) _ k' hk1

theorem mapHas_emit_mono (env : Env) (cfg : Option ErrCb) (s : BusState) (k0 : Key)
    (p : Payload) (k : Key) (hm : mapHas s.bus k = true) :
    mapHas (emit env cfg s k0 p).1.bus k = true := by
  unfold emit
  cases e : mapGet s.bus k0 with
  | none => exact hm
  | some r => exact mapHas_emitLoop_mono env cfg k0 p r _ 0 s k hm

theorem mapHas_applyOps_mono (env : Env) (cfg : Option ErrCb) :
    ∀ (ops : List Op) (s : BusState) (k : Key), mapHas s.bus k = true →
      mapHas (applyOps env cfg ops s).bus k = true := by
  intro ops
  induction ops with
  | nil => intro s k hm; exact hm
  | cons op rest ih =>
      intro s k hm
      cases op with
      | «on» k' h => exact ih _ _ (mapHas_on_mono s k' h k hm)
      | off k' h => exact ih _ _ (mapHas_off_mono s k' h k hm)
      | emit k' p => exact ih _ _ (mapHas_emit_mono env cfg s k' p k hm)

/-! ### Claim theorems -/

/-- C1: `emit(K,P)` synchronously invokes every handler registered under
`K`, in insertion order, passing `P` as the sole argument; `subscribe`
appends one entry, so after `subscribe(K,H)` an `emit(K,P)` invokes `H`
exactly once more than its previous registration count (a fresh handler
exactly once; a handler subscribed n times, n times). -/
theorem C1_emit_invokes_in_order (env : Env) (cfg : Option ErrCb) (s : BusState)
    (k : Key) (p : Payload) (h : HandlerId) (hwf : WF s)
    (henv : ∀ h', throwOf (env h' p) = none) :
    (emit env cfg s k p).2.1 = (handlersOf s k).map (fun x => Ev.invoke x p) ∧
    (emit env cfg s k p).2.2 = none ∧
    handlersOf («on» s k h) k = handlersOf s k ++ [h] ∧
    ((emit env cfg («on» s k h) k p).2.1).count (Ev.invoke h p) =
      (handlersOf s k).count h + 1 := by
  have hinj : Function.Injective (fun x : HandlerId => Ev.invoke x p) := by
    intro a b hab
    simpa using hab
  obtain ⟨t1, t2⟩ := snapList_throwFree env cfg k p (handlersOf s k) s
    (fun h' _ => henv h')
  obtain ⟨t1', _⟩ := snapList_throwFree env cfg k p (handlersOf («on» s k h) k)
    («on» s k h) (fun h' _ => henv h')
  refine ⟨?_, ?_, handlersOf_on s k h hwf, ?_⟩
  · rw [emit_eq_snapList]
    exact t1
  · rw [emit_eq_snapList]
    exact t2
  · rw [emit_eq_snapList, t1', handlersOf_on s k h hwf]
    simp [List.count_map_of_injective _ _ hinj]

/-- Witness for C1 at a concrete bus: two handlers under key 0. -/
theorem C1_witness :
    WF («on» BusState.empty 0 5) ∧
    ((emit (fun _ _ => []) none («on» («on» BusState.empty 0 5) 0 7) 0 3).2.1).count
        (Ev.invoke 7 3) = (handlersOf («on» BusState.empty 0 5) 0).count 7 + 1 :=
  ⟨by decide,
    (C1_emit_invokes_in_order (fun _ _ => []) none («on» BusState.empty 0 5) 0 3 7
      (by decide) (fun h' => rfl)).2.2.2⟩

/-- C2: the handlers invoked by one `emit(K,P)` are exactly those
registered under `K` when it begins iterating: `emit` coincides with
snapshot dispatch, so re-entrant `subscribe`/`unsubscribe` from inside a
handler cannot skip or duplicate already-fixed positions, and handlers
added for `K` during the emit are not invoked by it. -/
theorem C2_emit_snapshot (env : Env) (cfg : Option ErrCb) (s : BusState) (k : Key)
    (p : Payload) :
    emit env cfg s k p = emitSnap env cfg s k p ∧
    ∀ h : HandlerId, Ev.invoke h p ∈ (emit env cfg s k p).2.1 → h ∈ handlersOf s k := by
  refine ⟨emit_eq_emitSnap env cfg s k p, ?_⟩
  intro h hm
  rw [emit_eq_snapList] at hm
  exact snapList_invoke_mem env cfg k p _ s h hm

/-- Witness for C2: a handler whose body re-entrantly subscribes another
handler under the same key while the emit runs. -/
theorem C2_witness :
    emit (fun h _ => if h = 5 then [Act.«on» 0 9] else []) none
        («on» BusState.empty 0 5) 0 3 =
      emitSnap (fun h _ => if h = 5 then [Act.«on» 0 9] else []) none
        («on» BusState.empty 0 5) 0 3 ∧
    (5 : HandlerId) ∈ handlersOf («on» BusState.empty 0 5) 0 :=
  ⟨(C2_emit_snapshot (fun h _ => if h = 5 then [Act.«on» 0 9] else []) none
      («on» BusState.empty 0 5) 0 3).1,
    (C2_emit_snapshot (fun h _ => if h = 5 then [Act.«on» 0 9] else []) none
      («on» BusState.empty 0 5) 0 3).2 5 (by decide)⟩

/-- C3: when a handler throws during `emit(K,P)` and the configured
`onError` does not itself throw, the loop catches the exception, invokes
`onError` with (the thrown error, K, P), and continues: nothing escapes
`emit`, the trace is exactly each registered handler invoked with `P`
with an `onError` event after each throwing one, so every other handler
is still invoked. -/
theorem C3_handler_failure_isolated (env : Env) (f : ErrCb) (s : BusState) (k : Key)
    (p : Payload) (hf : ∀ e, f e k p = none) :
    (emit env (some f) s k p).2.2 = none ∧
    (emit env (some f) s k p).2.1 = traceOf env k p (handlersOf s k) ∧
    (∀ h ∈ handlersOf s k, Ev.invoke h p ∈ (emit env (some f) s k p).2.1) ∧
    (∀ h ∈ handlersOf s k, ∀ e, throwOf (env h p) = some e →
      Ev.errCb e k p ∈ (emit env (some f) s k p).2.1) := by
  obtain ⟨t1, t2⟩ := snapList_benign env k p f hf (handlersOf s k) s
  refine ⟨?_, ?_, ?_, ?_⟩
  · rw [emit_eq_snapList]
    exact t2
  · rw [emit_eq_snapList]
    exact t1
  · intro h hm
    rw [emit_eq_snapList, t1]
    exact invoke_mem_traceOf env k p _ h hm
  · intro h hm e hth
    rw [emit_eq_snapList, t1]
    exact errCb_mem_traceOf env k p _ h e hm hth

/-- Witness for C3: handler 1 throws error 7, handler 2 is also
subscribed; handler 2 is still invoked and `onError` sees (7, key, payload). -/
theorem C3_witness :
    (emit (fun h _ => if h = 1 then [Act.throw 7] else []) (some (fun _ _ _ => none))
        («on» («on» BusState.empty 0 1) 0 2) 0 4).2.2 = none ∧
    Ev.invoke 2 4 ∈ (emit (fun h _ => if h = 1 then [Act.throw 7] else [])
        (some (fun _ _ _ => none)) («on» («on» BusState.empty 0 1) 0 2) 0 4).2.1 ∧
    Ev.errCb 7 0 4 ∈ (emit (fun h _ => if h = 1 then [Act.throw 7] else [])
        (some (fun _ _ _ => none)) («on» («on» BusState.empty 0 1) 0 2) 0 4).2.1 :=
  ⟨(C3_handler_failure_isolated (fun h _ => if h = 1 then [Act.throw 7] else [])
      (fun _ _ _ => none) («on» («on» BusState.empty 0 1) 0 2) 0 4 (fun e => rfl)).1,
    (C3_handler_failure_isolated (fun h _ => if h = 1 then [Act.throw 7] else [])
      (fun _ _ _ => none) («on» («on» BusState.empty 0 1) 0 2) 0 4
      (fun e => rfl)).2.2.1 2 (by decide),
    (C3_handler_failure_isolated (fun h _ => if h = 1 then [Act.throw 7] else [])
      (fun _ _ _ => none) («on» («on» BusState.empty 0 1) 0 2) 0 4
      (fun e => rfl)).2.2.2 1 (by decide) 7 (by decide)⟩

/-- C4: `off(K,H)` removes every entry under `K` whose handler is `H`,
preserving the relative order of the remaining handlers (it rewrites the
sequence to its `≠ H` filter); it is a no-op when `K` is absent, and
calling it again is idempotent. -/
theorem C4_off_filters (s : BusState) (k : Key) (h : HandlerId) :
    handlersOf (off s k h) k = (handlersOf s k).filter (fun x => x ≠ h) ∧
    (mapGet s.bus k = none → off s k h = s) ∧
    handlersOf (off (off s k h) k h) k = handlersOf (off s k h) k := by
  refine ⟨handlersOf_off s k h, ?_, ?_⟩
  · intro hn
    rw [off_eq]
    simp [hn]
  · rw [handlersOf_off, handlersOf_off, List.filter_filter]
    simp

/-- Witness for C4: unsubscribing from a key never subscribed is a no-op. -/
theorem C4_witness :
    mapGet BusState.empty.bus 0 = none ∧ off BusState.empty 0 3 = BusState.empty :=
  ⟨by decide, (C4_off_filters BusState.empty 0 3).2.1 (by decide)⟩

/-- C5: after `subscribe(K,H)` followed by `off(K,H)`, a subsequent
`emit(K,P)` invokes `H` zero times — whatever the other registrations,
handler behaviours, or error callback. -/
theorem C5_unsubscribed_never_invoked (env : Env) (cfg : Option ErrCb) (s : BusState)
    (k : Key) (h : HandlerId) (p : Payload) :
    ((emit env cfg (off («on» s k h) k h) k p).2.1).count (Ev.invoke h p) = 0 := by
  rw [List.count_eq_zero]
  intro hm
  rw [emit_eq_snapList] at hm
  have hmem := snapList_invoke_mem env cfg k p _ _ h hm
  rw [handlersOf_off] at hmem
  simp at hmem

/-- C6: the zero-argument unsubscribe closure returned by
`subscribe(K,H)` has exactly the effect of `off(K,H)` on the registry —
and hence removes all occurrences of `H` under `K`, not a single tracked
instance. -/
theorem C6_token_equals_off (k : Key) (h : HandlerId) (s s' : BusState) :
    unsubTok k h s = off s k h ∧
    (handlersOf (unsubTok k h s') k).count h = 0 := by
  refine ⟨rfl, ?_⟩
  show (handlersOf (off s' k h) k).count h = 0
  rw [handlersOf_off, List.count_eq_zero]
  simp

/-- C7: with no `onError` configured, a throwing handler never propagates
its exception to the caller of `emit`: the dispatch returns normally
after attempting every handler, and the trace holds exactly the handler
invocations (no logging or other events), whatever the handlers do. -/
theorem C7_absent_onError_swallows (env : Env) (s : BusState) (k : Key) (p : Payload) :
    (emit env none s k p).2.2 = none ∧
    (emit env none s k p).2.1 = (handlersOf s k).map (fun x => Ev.invoke x p) := by
  obtain ⟨t1, t2⟩ := snapList_cfg_none env k p (handlersOf s k) s
  constructor
  · rw [emit_eq_snapList]
    exact t2
  · rw [emit_eq_snapList]
    exact t1

/-- C8: `emit` on a key with zero registered handlers is a no-op: it
returns the state unchanged, produces no events, and raises nothing. -/
theorem C8_emit_empty_noop (env : Env) (cfg : Option ErrCb) (s : BusState) (k : Key)
    (p : Payload) (h0 : handlersOf s k = []) :
    emit env cfg s k p = (s, [], none) := by
  rw [emit_eq_snapList, h0]
  rfl

/-- Witness for C8: emitting on a fresh bus with no subscriptions. -/
theorem C8_witness :
    handlersOf BusState.empty 0 = [] ∧
    emit (fun _ _ => []) none BusState.empty 0 5 = (BusState.empty, [], none) :=
  ⟨by decide, C8_emit_empty_noop (fun _ _ => []) none BusState.empty 0 5 (by decide)⟩

/-- C9: if a handler throws during `emit(K,P)` and the configured
`onError` itself throws from the catch block, that exception escapes
`emit` and the handlers registered after the failing one are not
invoked: the trace stops at the `onError` event. -/
theorem C9_onError_throw_propagates (env : Env) (f : ErrCb) (s : BusState) (k : Key)
    (p : Payload) (l1 l2 : List HandlerId) (h : HandlerId) (e e' : Error)
    (hsplit : handlersOf s k = l1 ++ h :: l2)
    (h1 : ∀ x ∈ l1, throwOf (env x p) = none)
    (hth : throwOf (env h p) = some e)
    (hf : f e k p = some e') :
    (emit env (some f) s k p).2.2 = some e' ∧
    (emit env (some f) s k p).2.1 =
      l1.map (fun x => Ev.invoke x p) ++ [Ev.invoke h p, Ev.errCb e k p] := by
  rw [emit_eq_snapList, hsplit,
    snapList_append_throwFree env (some f) k p l1 (h :: l2) s h1,
    snapList_throw_step env k p f h l2 _ e e' hth hf]
  exact ⟨rfl, rfl⟩

/-- Witness for C9: handler 1 throws 7, `onError` throws 9; the exception
9 escapes `emit` and handler 2 is never invoked. -/
theorem C9_witness :
    handlersOf («on» («on» BusState.empty 0 1) 0 2) 0 = [] ++ 1 :: [2] ∧
    (emit (fun h _ => if h = 1 then [Act.throw 7] else []) (some (fun _ _ _ => some 9))
        («on» («on» BusState.empty 0 1) 0 2) 0 4).2.2 = some 9 ∧
    (emit (fun h _ => if h = 1 then [Act.throw 7] else []) (some (fun _ _ _ => some 9))
        («on» («on» BusState.empty 0 1) 0 2) 0 4).2.1 =
      [].map (fun x => Ev.invoke x 4) ++ [Ev.invoke 1 4, Ev.errCb 7 0 4] :=
  ⟨by decide,
    (C9_onError_throw_propagates (fun h _ => if h = 1 then [Act.throw 7] else [])
      (fun _ _ _ => some 9) («on» («on» BusState.empty 0 1) 0 2) 0 4 [] [2] 1 7 9
      (by decide) (fun x hx => absurd hx (List.not_mem_nil x)) (by decide) rfl).1,
    (C9_onError_throw_propagates (fun h _ => if h = 1 then [Act.throw 7] else [])
      (fun _ _ _ => some 9) («on» («on» BusState.empty 0 1) 0 2) 0 4 [] [2] 1 7 9
      (by decide) (fun x hx => absurd hx (List.not_mem_nil x)) (by decide) rfl).2⟩

/-- C10: once `subscribe` has touched a key, the map retains an entry for
it forever: `on` creates it, no sequence of `on`/`off`/`emit` removes it,
`off` replaces the sequence with a freshly allocated filtered array
(never deleting the entry), and a retained empty entry behaves exactly
like key absence for `emit` and `off`. -/
theorem C10_key_entry_retained (env : Env) (cfg : Option ErrCb) (s s' : BusState)
    (k : Key) (h h' : HandlerId) (ops : List Op) (p : Payload) :
    mapHas («on» s k h).bus k = true ∧
    (mapHas s.bus k = true → mapHas (applyOps env cfg ops s).bus k = true) ∧
    mapHas (off s k h).bus k = mapHas s.bus k ∧
    (∀ r, mapGet s.bus k = some r →
      mapGet (off s k h).bus k = some s.heap.length ∧
      heapGet (off s k h) s.heap.length = (heapGet s r).filter (fun x => x ≠ h)) ∧
    (handlersOf s' k = [] →
      emit env cfg s' k p = (s', [], none) ∧ handlersOf (off s' k h') k = []) := by
  refine ⟨mapHas_on_self s k h, fun hm => mapHas_applyOps_mono env cfg ops s k hm,
    mapHas_off_self s k h, ?_, ?_⟩
  · intro r hr
    rw [off_eq]
    simp only [hr]
    constructor
    · simp [mapGet_mapSet_self]
    · simp [heapGet_mk_append]
  · intro h0
    constructor
    · rw [emit_eq_snapList, h0]
      rfl
    · rw [handlersOf_off, h0]
      rfl

/-- Witness for C10: key 0 survives an unsubscribe and an emit, and its
emptied entry behaves like an absent key. -/
theorem C10_witness :
    mapHas (applyOps (fun _ _ => []) none [Op.off 0 5, Op.emit 0 3]
        («on» BusState.empty 0 5)).bus 0 = true ∧
    mapGet («on» BusState.empty 0 5).bus 0 = some 0 ∧
    handlersOf (off («on» BusState.empty 0 5) 0 5) 0 = [] ∧
    emit (fun _ _ => []) none (off («on» BusState.empty 0 5) 0 5) 0 3 =
      (off («on» BusState.empty 0 5) 0 5, [], none) :=
  ⟨(C10_key_entry_retained (fun _ _ => []) none («on» BusState.empty 0 5)
      (off («on» BusState.empty 0 5) 0 5) 0 5 5 [Op.off 0 5, Op.emit 0 3] 3).2.1
      (by decide),
    by decide, by decide,
    ((C10_key_entry_retained (fun _ _ => []) none («on» BusState.empty 0 5)
      (off («on» BusState.empty 0 5) 0 5) 0 5 5 [Op.off 0 5, Op.emit 0 3] 3).2.2.2.2
      (by decide)).1⟩
